import Mathlib

/-!
Verification of the core algorithms of `src/sigar.c` (the sigar
system-information library): the growable list collections, the
adaptive-buffer network-interface enumeration loop, the per-interface
configuration resolver, the filesystem-type classifier and the
fully-qualified-hostname resolver.  Each C function used by a claim is
embedded as an executable Lean definition; kernel/DNS collaborators are
passed in as explicit oracle values so that every behaviour of the
environment can be quantified over.
-/

/-- Status code for success, `SIGAR_OK` (0 in sigar.h). -/
def SIGAR_OK : Nat := 0

/-- The `EINVAL` errno value (22), the overflow signal checked by
`sigar_net_interface_list_get`. -/
def EINVAL : Nat := 22

/-- C strings are modelled as lists of characters (NUL not represented). -/
abbrev CStr := List Char

/-!
## Growable list collections

`sigar.c` defines one create/grow/destroy triple per list kind
(`sigar_proc_list_create`/`_grow`/`_destroy`, `sigar_who_list_*`,
`sigar_net_route_list_*`, ...), all with identical shape and differing
only in the chunk constant (`SIGAR_PROC_LIST_MAX`, `SIGAR_WHO_LIST_MAX`,
...).  We embed the family once, parameterised by the chunk size `K` and
the element type.  `data` holds the `number` valid elements in order;
the uninitialised tail of the C buffer (up to `size`) is not represented.
-/

structure SigarList (α : Type) where
  number : Nat
  size : Nat
  data : List α
deriving DecidableEq

/-- Embeds `sigar_proc_list_create` (sigar.c:339) and its siblings:
`number = 0`, `size = K`, storage of one chunk allocated. -/
def sigar_list_create (α : Type) (K : Nat) : SigarList α :=
  ⟨0, K, []⟩

/-- Embeds `sigar_proc_list_grow` (sigar.c:348) and its siblings:
realloc to `size + K`, preserving the elements and their order. -/
def sigar_list_grow (K : Nat) (l : SigarList α) : SigarList α :=
  ⟨l.number, l.size + K, l.data⟩

/-- Modelled from the spec: the grow-before-write insertion discipline of
the `SIGAR_PROC_LIST_GROW`-style macros (declared in the sigar headers,
which are not part of src/): grow exactly when `number == size`, then
write the element at index `number` and increment `number`. -/
def sigar_list_insert (K : Nat) (l : SigarList α) (x : α) : SigarList α :=
  let l' := if l.number = l.size then sigar_list_grow K l else l
  ⟨l'.number + 1, l'.size, l'.data ++ [x]⟩

/-- A whole sequence of insertions under the grow-before-write discipline. -/
def sigar_list_insertAll (K : Nat) (l : SigarList α) (xs : List α) : SigarList α :=
  xs.foldl (sigar_list_insert K) l

/-- Embeds `sigar_proc_list_destroy` (sigar.c:358) and its siblings:
`if (list->size) { free(list->data); list->number = list->size = 0; }`.
The boolean records whether `free` was called on this invocation. -/
def sigar_list_destroy (l : SigarList α) : SigarList α × Bool :=
  if l.size ≠ 0 then (⟨0, 0, []⟩, true) else (l, false)

/-- The state invariant maintained by create/insert on a collection with
chunk size `K`: count below capacity, capacity exactly one chunk while
empty and otherwise within one chunk above the count, capacity a
multiple of the chunk, and `data` holding exactly `number` elements. -/
def SigarListInv (K : Nat) (l : SigarList α) : Prop :=
  l.number ≤ l.size ∧
  (l.number = 0 → l.size = K) ∧
  (0 < l.number → l.size < l.number + K) ∧
  K ∣ l.size ∧
  l.data.length = l.number

theorem sigar_list_create_inv (α : Type) (K : Nat) :
    SigarListInv K (sigar_list_create α K) :=
  ⟨Nat.zero_le K, fun _ => rfl, fun h => absurd h (Nat.lt_irrefl 0), dvd_refl K, rfl⟩

theorem sigar_list_insert_inv (K : Nat) (hK : 0 < K) (l : SigarList α) (x : α)
    (h : SigarListInv K l) :
    SigarListInv K (sigar_list_insert K l x) ∧
    (sigar_list_insert K l x).number = l.number + 1 ∧
    (sigar_list_insert K l x).data = l.data ++ [x] := by
  obtain ⟨h1, h2, h3, h4, h5⟩ := h
  by_cases hc : l.number = l.size
  · have he : sigar_list_insert K l x = ⟨l.number + 1, l.size + K, l.data ++ [x]⟩ := by
      simp [sigar_list_insert, sigar_list_grow, hc]
    rw [he]
    refine ⟨⟨?_, ?_, ?_, ?_, ?_⟩, rfl, rfl⟩
    · show l.number + 1 ≤ l.size + K
      omega
    · show l.number + 1 = 0 → l.size + K = K
      omega
    · show 0 < l.number + 1 → l.size + K < l.number + 1 + K
      omega
    · show K ∣ l.size + K
      exact dvd_add h4 dvd_rfl
    · show (l.data ++ [x]).length = l.number + 1
      simp [h5]
  · have he : sigar_list_insert K l x = ⟨l.number + 1, l.size, l.data ++ [x]⟩ := by
      simp [sigar_list_insert, hc]
    rw [he]
    have hlt : l.number < l.size := lt_of_le_of_ne h1 hc
    refine ⟨⟨?_, ?_, ?_, h4, ?_⟩, rfl, rfl⟩
    · show l.number + 1 ≤ l.size
      omega
    · show l.number + 1 = 0 → l.size = K
      omega
    · show 0 < l.number + 1 → l.size < l.number + 1 + K
      intro _
      rcases Nat.eq_zero_or_pos l.number with h0 | hpos
      · have := h2 h0
        omega
      · have := h3 hpos
        omega
    · show (l.data ++ [x]).length = l.number + 1
      simp [h5]

theorem sigar_list_insertAll_inv (K : Nat) (hK : 0 < K) (xs : List α)
    (l : SigarList α) (h : SigarListInv K l) :
    SigarListInv K (sigar_list_insertAll K l xs) ∧
    (sigar_list_insertAll K l xs).number = l.number + xs.length ∧
    (sigar_list_insertAll K l xs).data = l.data ++ xs := by
  induction xs generalizing l with
  | nil => simpa [sigar_list_insertAll] using h
  | cons x xs ih =>
    obtain ⟨hinv, hnum, hdata⟩ := sigar_list_insert_inv K hK l x h
    obtain ⟨hinv', hnum', hdata'⟩ := ih (sigar_list_insert K l x) hinv
    refine ⟨by simpa [sigar_list_insertAll] using hinv', ?_, ?_⟩
    · simp only [sigar_list_insertAll] at hnum' ⊢
      simp [List.foldl_cons, hnum', hnum]
      omega
    · simp only [sigar_list_insertAll] at hdata' ⊢
      simp [List.foldl_cons, hdata', hdata, hnum]

theorem sigar_list_size_formula (K : Nat) (hK : 0 < K) (l : SigarList α)
    (h : SigarListInv K l) :
    l.size = K * max 1 ((l.number + K - 1) / K) := by
  obtain ⟨h1, h2, h3, ⟨q, hq⟩, _⟩ := h
  rcases Nat.eq_zero_or_pos l.number with h0 | hpos
  · have hs := h2 h0
    have hd0 : (l.number + K - 1) / K = 0 := by
      apply Nat.div_eq_of_lt
      omega
    rw [hd0, hs]
    simp
  · have hlt := h3 hpos
    rw [hq] at h1 hlt
    have hqpos : 0 < q := by
      rcases Nat.eq_zero_or_pos q with rfl | hqp
      · simp at h1
        omega
      · exact hqp
    have hdiv : (l.number + K - 1) / K = q := by
      apply Nat.div_eq_of_lt_le
      · have e1 : q * K = K * q := Nat.mul_comm q K
        rw [e1]
        omega
      · have e2 : (q + 1) * K = K * q + K := by ring
        rw [e2]
        omega
    rw [hdiv, hq]
    have hm : max 1 q = q := Nat.max_eq_right hqpos
    rw [hm]

/-- Claim C3 as stated fails at `N = 0`: a freshly created collection with
chunk size 2 has capacity 2 (one chunk pre-allocated), while the claimed
formula `K * ceil(N/K)` gives `2 * ceil(0/2) = 0`. -/
theorem c3_counterexample :
    ¬ ((sigar_list_insertAll 2 (sigar_list_create Nat 2) []).size =
        2 * ((0 + 2 - 1) / 2)) := by
  decide

/-- Claim C3 (amended): for every chunk constant `K > 0` and every
sequence of `N` insertions under the grow-before-write discipline into a
freshly created collection, the capacity equals `K * max 1 (ceil(N/K))`
(the `N = 0` case keeps the pre-allocated chunk of capacity `K`), the
count equals `N`, and reading the elements back in index order yields
exactly the inserted elements in insertion order. -/
theorem claim_c3_amended (K : Nat) (hK : 0 < K) (xs : List α) :
    (sigar_list_insertAll K (sigar_list_create α K) xs).size =
      K * max 1 ((xs.length + K - 1) / K) ∧
    (sigar_list_insertAll K (sigar_list_create α K) xs).number = xs.length ∧
    (sigar_list_insertAll K (sigar_list_create α K) xs).data = xs := by
  obtain ⟨hinv, hnum, hdata⟩ :=
    sigar_list_insertAll_inv K hK xs (sigar_list_create α K) (sigar_list_create_inv α K)
  refine ⟨?_, by simpa [sigar_list_create] using hnum, by simpa [sigar_list_create] using hdata⟩
  have := sigar_list_size_formula K hK _ hinv
  rw [this, hnum]
  simp [sigar_list_create]

/-- Witness for the amended claim C3 at `K = 2` and three insertions:
capacity `2 * max 1 (ceil(3/2)) = 4`, count 3, order preserved. -/
theorem claim_c3_witness :
    (sigar_list_insertAll 2 (sigar_list_create Nat 2) [7, 8, 9]).size =
      2 * max 1 ((([7, 8, 9] : List Nat).length + 2 - 1) / 2) ∧
    (sigar_list_insertAll 2 (sigar_list_create Nat 2) [7, 8, 9]).number =
      ([7, 8, 9] : List Nat).length ∧
    (sigar_list_insertAll 2 (sigar_list_create Nat 2) [7, 8, 9]).data = [7, 8, 9] :=
  claim_c3_amended 2 (by decide) [7, 8, 9]

/-- Claim C8: destroying a freshly created zero-element collection frees
once and zeroes both counters; a second destroy after a destroy performs
no free (no double-free) and is a no-op, so destroy is idempotent; and
any destroy on a collection satisfying the `count ≤ capacity` data-model
invariant leaves `count = capacity = 0`. -/
theorem claim_c8 (K : Nat) (l : SigarList Nat) (hl : l.number ≤ l.size) :
    ((sigar_list_destroy (sigar_list_create Nat K)).1.number = 0 ∧
     (sigar_list_destroy (sigar_list_create Nat K)).1.size = 0) ∧
    (sigar_list_destroy l).1.number = 0 ∧
    (sigar_list_destroy l).1.size = 0 ∧
    (sigar_list_destroy (sigar_list_destroy l).1).2 = false ∧
    (sigar_list_destroy (sigar_list_destroy l).1).1 = (sigar_list_destroy l).1 := by
  unfold sigar_list_destroy sigar_list_create
  by_cases h : l.size = 0
  · have h0 : l.number = 0 := by omega
    by_cases hK : K = 0 <;> simp [h, h0, hK]
  · by_cases hK : K = 0 <;> simp [h, hK]

/-- Witness for claim C8 at `K = 4` and the two-element collection
`⟨2, 3, [5, 6]⟩`. -/
theorem claim_c8_witness :
    ((sigar_list_destroy (sigar_list_create Nat 4)).1.number = 0 ∧
     (sigar_list_destroy (sigar_list_create Nat 4)).1.size = 0) ∧
    (sigar_list_destroy (⟨2, 3, [5, 6]⟩ : SigarList Nat)).1.number = 0 ∧
    (sigar_list_destroy (⟨2, 3, [5, 6]⟩ : SigarList Nat)).1.size = 0 ∧
    (sigar_list_destroy (sigar_list_destroy (⟨2, 3, [5, 6]⟩ : SigarList Nat)).1).2 = false ∧
    (sigar_list_destroy (sigar_list_destroy (⟨2, 3, [5, 6]⟩ : SigarList Nat)).1).1 =
      (sigar_list_destroy (⟨2, 3, [5, 6]⟩ : SigarList Nat)).1 :=
  claim_c8 4 ⟨2, 3, [5, 6]⟩ (by decide)

/-!
## Filesystem type classification

`sigar_fs_type_get` (sigar.c:476) first consults `fsp->type` (already
set), then the OS-specific hook `sigar_os_fs_type_get` (not part of
src/, modelled as an arbitrary function), then the portable classifier
`sigar_common_fs_type_get` (sigar.c:428); an unset result becomes
`SIGAR_FSTYPE_NONE`, an out-of-range result is coerced to
`SIGAR_FSTYPE_NONE`, and `type_name` is copied from `fstype_names`.
The numeric values follow the `sigar_file_system_type_e` enum that the
`fstype_names` table is documented to be indexed with.
-/

def SIGAR_FSTYPE_UNKNOWN : Nat := 0

def SIGAR_FSTYPE_NONE : Nat := 1

def SIGAR_FSTYPE_LOCAL_DISK : Nat := 2

def SIGAR_FSTYPE_NETWORK : Nat := 3

def SIGAR_FSTYPE_RAM_DISK : Nat := 4

def SIGAR_FSTYPE_CDROM : Nat := 5

def SIGAR_FSTYPE_SWAP : Nat := 6

def SIGAR_FSTYPE_MAX : Nat := 7

/-- The `fstype_names` table (sigar.c:424), indexed by filesystem type. -/
def fstype_names : List CStr :=
  ["unknown".toList, "none".toList, "local".toList, "remote".toList,
   "ram".toList, "cdrom".toList, "swap".toList]

/-- The fields of `sigar_file_system_t` that `sigar_fs_type_get` touches. -/
structure FileSystem where
  type : Nat
  sys_type_name : CStr
  type_name : CStr
deriving DecidableEq

/-- Embeds `sigar_common_fs_type_get` (sigar.c:428): a switch on the
first character of `sys_type_name` followed by `strEQ` comparisons,
setting `type` for the recognised names and leaving it unchanged
otherwise. -/
def sigar_common_fs_type_get (fsp : FileSystem) : FileSystem :=
  match fsp.sys_type_name.head? with
  | some 'n' =>
    if fsp.sys_type_name = "nfs".toList then { fsp with type := SIGAR_FSTYPE_NETWORK } else fsp
  | some 's' =>
    if fsp.sys_type_name = "smbfs".toList then { fsp with type := SIGAR_FSTYPE_NETWORK }
    else if fsp.sys_type_name = "swap".toList then { fsp with type := SIGAR_FSTYPE_SWAP }
    else fsp
  | some 'a' =>
    if fsp.sys_type_name = "afs".toList then { fsp with type := SIGAR_FSTYPE_NETWORK } else fsp
  | some 'i' =>
    if fsp.sys_type_name = "iso9660".toList then { fsp with type := SIGAR_FSTYPE_CDROM } else fsp
  | some 'm' =>
    if fsp.sys_type_name = "msdos".toList ∨ fsp.sys_type_name = "minix".toList then
      { fsp with type := SIGAR_FSTYPE_LOCAL_DISK }
    else fsp
  | some 'h' =>
    if fsp.sys_type_name = "hpfs".toList then { fsp with type := SIGAR_FSTYPE_LOCAL_DISK } else fsp
  | some 'v' =>
    if fsp.sys_type_name = "vfat".toList then { fsp with type := SIGAR_FSTYPE_LOCAL_DISK } else fsp
  | _ => fsp

/-- First stage of the short-circuit chain in `sigar_fs_type_get`
(sigar.c:478): the OS hook runs only when `fsp->type` is still zero. -/
def fsTypeStage1 (osType : FileSystem → Nat) (fsp : FileSystem) : FileSystem :=
  if fsp.type ≠ 0 then fsp else { fsp with type := osType fsp }

/-- Second stage: `sigar_common_fs_type_get` runs only when the type is
still zero after the OS hook. -/
def fsTypeStage2 (fsp : FileSystem) : FileSystem :=
  if fsp.type ≠ 0 then fsp else sigar_common_fs_type_get fsp

/-- Third stage: a type that is still zero becomes `SIGAR_FSTYPE_NONE`. -/
def fsTypeStage3 (fsp : FileSystem) : FileSystem :=
  if fsp.type ≠ 0 then fsp else { fsp with type := SIGAR_FSTYPE_NONE }

/-- Fourth stage (sigar.c:485): a type at or beyond `SIGAR_FSTYPE_MAX`
is coerced to `SIGAR_FSTYPE_NONE`. -/
def fsTypeStage4 (fsp : FileSystem) : FileSystem :=
  if SIGAR_FSTYPE_MAX ≤ fsp.type then { fsp with type := SIGAR_FSTYPE_NONE } else fsp

/-- Embeds `sigar_fs_type_get` (sigar.c:476), with the OS-specific hook
`sigar_os_fs_type_get` passed in as the arbitrary function `osType`. -/
def sigar_fs_type_get (osType : FileSystem → Nat) (fsp : FileSystem) : FileSystem :=
  let f := fsTypeStage4 (fsTypeStage3 (fsTypeStage2 (fsTypeStage1 osType fsp)))
  { f with type_name := fstype_names.getD f.type [] }

theorem fsTypeStage4_lt (fsp : FileSystem) : (fsTypeStage4 fsp).type < SIGAR_FSTYPE_MAX := by
  unfold fsTypeStage4 SIGAR_FSTYPE_MAX SIGAR_FSTYPE_NONE
  by_cases h : 7 ≤ fsp.type
  · simp [SIGAR_FSTYPE_MAX, SIGAR_FSTYPE_NONE, h]
  · simp only [SIGAR_FSTYPE_MAX] at h
    simp [h]
    omega

theorem fstype_names_getD_mem (t : Nat) (ht : t < SIGAR_FSTYPE_MAX) :
    fstype_names.getD t [] ∈ fstype_names := by
  unfold SIGAR_FSTYPE_MAX at ht
  interval_cases t <;> decide

/-- Claim C9: after `sigar_fs_type_get` returns — for every behaviour of
the OS-specific hook and every initial field state — `type` is a valid
index strictly below `SIGAR_FSTYPE_MAX`, and `type_name` is exactly the
`fstype_names` entry at index `type`, hence one of the seven fixed
names. -/
theorem claim_c9 (osType : FileSystem → Nat) (fsp : FileSystem) :
    (sigar_fs_type_get osType fsp).type < SIGAR_FSTYPE_MAX ∧
    (sigar_fs_type_get osType fsp).type_name =
      fstype_names.getD ((sigar_fs_type_get osType fsp).type) [] ∧
    (sigar_fs_type_get osType fsp).type_name ∈ fstype_names := by
  have hlt := fsTypeStage4_lt (fsTypeStage3 (fsTypeStage2 (fsTypeStage1 osType fsp)))
  refine ⟨hlt, rfl, ?_⟩
  exact fstype_names_getD_mem _ hlt

/-!
## Adaptive-buffer network interface enumeration

`sigar_net_interface_list_get` (sigar.c:1097) runs a retry loop against
`ioctl(sock, SIOCGIFCONF, &ifc)`.  The kernel is modelled as a function
from the buffer length handed to the ioctl (`ifc.ifc_len` on entry,
equal to `sigar->ifconf_len`) to a response: either success together
with the length the kernel wrote back into `ifc.ifc_len`, or failure
with an errno together with the value `ifc.ifc_len` holds after the
failed call.  The session state carries `ifconf_buf != NULL` as a
boolean, `ifconf_len`, and the local `lastlen`.  The growth increment
`sizeof(struct ifreq) * SIGAR_NET_IFLIST_MAX` is kept abstract as `Δ`.
-/

/-- One kernel response to `SIOCGIFCONF`: success with the reported
length, or failure carrying the errno and the (usually unchanged)
`ifc_len` after the call. -/
inductive KResp where
  | ok (r : Nat)
  | err (e : Nat) (flen : Nat)
deriving DecidableEq

/-- `sigar->ifconf_buf != NULL`, `sigar->ifconf_len` and the loop-local
`lastlen` of `sigar_net_interface_list_get`. -/
structure IfBufState where
  hasBuf : Bool
  len : Nat
  lastlen : Nat
deriving DecidableEq

/-- The buffer length used on the next ioctl attempt from state `st`:
the buffer is grown by `Δ` first when `!sigar->ifconf_buf || lastlen`
(sigar.c:1110). -/
def attemptLen (Δ : Nat) (st : IfBufState) : Nat :=
  if !st.hasBuf || st.lastlen != 0 then st.len + Δ else st.len

/-- Result of one iteration of the retry loop. -/
inductive IterOut where
  | accept (reported bufLen : Nat)
  | errReturn (e : Nat)
  | retry (st : IfBufState)
deriving DecidableEq

/-- One iteration of the `for (;;)` loop of
`sigar_net_interface_list_get` (sigar.c:1109-1139): grow if needed,
issue the ioctl, return the errno unless it is `EINVAL` with a
fresh length, accept when the reported length is strictly below the
buffer length, retry remembering the length when it is new, and
otherwise leave the loop with the full-buffer result. -/
def iflistIter (Δ : Nat) (k : Nat → KResp) (st : IfBufState) : IterOut :=
  match k (attemptLen Δ st) with
  | KResp.ok r =>
    if r < attemptLen Δ st then IterOut.accept r (attemptLen Δ st)
    else if r ≠ st.lastlen then IterOut.retry ⟨true, attemptLen Δ st, r⟩
    else IterOut.accept r (attemptLen Δ st)
  | KResp.err e flen =>
    if e ≠ EINVAL ∨ st.lastlen = flen then IterOut.errReturn e
    else if flen < attemptLen Δ st then IterOut.accept flen (attemptLen Δ st)
    else if flen ≠ st.lastlen then IterOut.retry ⟨true, attemptLen Δ st, flen⟩
    else IterOut.accept flen (attemptLen Δ st)

/-- Final outcome of the retry loop: the accepted reported length with
the buffer length of the accepting attempt, or a propagated errno. -/
inductive IfOutcome where
  | accepted (reported bufLen : Nat)
  | failed (e : Nat)
deriving DecidableEq

/-- The retry loop itself, with explicit fuel; `none` means the fuel ran
out before the loop left its `for (;;)`. -/
def iflistLoop (Δ : Nat) (k : Nat → KResp) : Nat → IfBufState → Option IfOutcome
  | 0, _ => none
  | fuel + 1, st =>
    match iflistIter Δ k st with
    | IterOut.accept r L => some (IfOutcome.accepted r L)
    | IterOut.errReturn e => some (IfOutcome.failed e)
    | IterOut.retry st' => iflistLoop Δ k fuel st'

/-- The `ioctl(SIOCGIFCONF)` contract: on success the kernel reports at
most the buffer length it was given (it writes into the caller's buffer
and sets `ifc_len` to the number of bytes actually stored), and a failed
call leaves `ifc_len` at the value it was given. -/
def WellFormedKernel (k : Nat → KResp) : Prop :=
  ∀ L, (∀ r, k L = KResp.ok r → r ≤ L) ∧
       (∀ e flen, k L = KResp.err e flen → flen = L)

/-- Invariant of the loop state: `lastlen` never exceeds the session
buffer length, and a non-null session buffer has positive length. -/
def IfInv (st : IfBufState) : Prop :=
  st.lastlen ≤ st.len ∧ (st.hasBuf = true → 0 < st.len)

theorem lastlen_lt_attemptLen (Δ : Nat) (st : IfBufState) (hΔ : 0 < Δ)
    (hinv : IfInv st) : st.lastlen < attemptLen Δ st := by
  obtain ⟨h1, h2⟩ := hinv
  unfold attemptLen
  cases hb : st.hasBuf with
  | false =>
    have hc : (!false || (st.lastlen != 0)) = true := by simp
    rw [if_pos hc]
    omega
  | true =>
    have h3 := h2 hb
    by_cases hl : st.lastlen = 0
    · have hc : ¬ ((!true || (st.lastlen != 0)) = true) := by simp [hl]
      rw [if_neg hc]
      omega
    · have hc : (!true || (st.lastlen != 0)) = true := by simp [hl]
      rw [if_pos hc]
      omega

theorem iflistIter_accept_lt (Δ : Nat) (k : Nat → KResp) (st : IfBufState)
    (r L : Nat) (hΔ : 0 < Δ) (hinv : IfInv st)
    (h : iflistIter Δ k st = IterOut.accept r L) : r < L := by
  have hlast := lastlen_lt_attemptLen Δ st hΔ hinv
  unfold iflistIter at h
  split at h
  · split at h
    · cases h
      assumption
    · split at h
      · cases h
      · cases h
        rename_i hne
        push_neg at hne
        omega
  · split at h
    · cases h
    · split at h
      · cases h
        assumption
      · split at h
        · cases h
        · cases h
          rename_i hne
          push_neg at hne
          omega

theorem iflistIter_retry_inv (Δ : Nat) (k : Nat → KResp) (st st' : IfBufState)
    (hΔ : 0 < Δ) (hk : WellFormedKernel k) (hinv : IfInv st)
    (h : iflistIter Δ k st = IterOut.retry st') :
    IfInv st' ∧ st'.len = attemptLen Δ st ∧ st'.lastlen ≠ 0 ∧ st'.hasBuf = true := by
  have hlast := lastlen_lt_attemptLen Δ st hΔ hinv
  have hL : 0 < attemptLen Δ st := by omega
  obtain ⟨hok, herr⟩ := hk (attemptLen Δ st)
  unfold iflistIter at h
  split at h
  · rename_i r1 hke
    have hr := hok r1 hke
    split at h
    · cases h
    · split at h
      · cases h
        rename_i hlt hne
        refine ⟨⟨?_, fun _ => hL⟩, rfl, ?_, rfl⟩
        · show r1 ≤ attemptLen Δ st
          omega
        · show r1 ≠ 0
          omega
      · cases h
  · rename_i e1 flen1 hke
    have hf := herr e1 flen1 hke
    split at h
    · cases h
    · split at h
      · cases h
      · split at h
        · cases h
          rename_i hguard hlt hne
          refine ⟨⟨?_, fun _ => hL⟩, rfl, ?_, rfl⟩
          · show flen1 ≤ attemptLen Δ st
            omega
          · show flen1 ≠ 0
            omega
        · cases h

theorem iflistLoop_accept_lt (Δ : Nat) (k : Nat → KResp) (hΔ : 0 < Δ)
    (hk : WellFormedKernel k) :
    ∀ fuel st r L, IfInv st →
      iflistLoop Δ k fuel st = some (IfOutcome.accepted r L) → r < L := by
  intro fuel
  induction fuel with
  | zero =>
    intro st r L _ h
    simp [iflistLoop] at h
  | succ n ih =>
    intro st r L hinv h
    unfold iflistLoop at h
    cases hi : iflistIter Δ k st with
    | accept r1 L1 =>
      rw [hi] at h
      cases h
      exact iflistIter_accept_lt Δ k st r L hΔ hinv hi
    | errReturn e =>
      rw [hi] at h
      cases h
    | retry st2 =>
      rw [hi] at h
      exact ih st2 r L (iflistIter_retry_inv Δ k st st2 hΔ hk hinv hi).1 h

theorem iflistLoop_succ (Δ : Nat) (k : Nat → KResp) (fuel : Nat) (st : IfBufState) :
    iflistLoop Δ k (fuel + 1) st =
      match iflistIter Δ k st with
      | IterOut.accept r L => some (IfOutcome.accepted r L)
      | IterOut.errReturn e => some (IfOutcome.failed e)
      | IterOut.retry st2 => iflistLoop Δ k fuel st2 := rfl

theorem iflistLoop_of_accept (Δ : Nat) (k : Nat → KResp) (fuel : Nat) (st : IfBufState)
    (r L : Nat) (h : iflistIter Δ k st = IterOut.accept r L) :
    iflistLoop Δ k (fuel + 1) st = some (IfOutcome.accepted r L) := by
  rw [iflistLoop_succ, h]

theorem iflistLoop_of_err (Δ : Nat) (k : Nat → KResp) (fuel : Nat) (st : IfBufState)
    (e : Nat) (h : iflistIter Δ k st = IterOut.errReturn e) :
    iflistLoop Δ k (fuel + 1) st = some (IfOutcome.failed e) := by
  rw [iflistLoop_succ, h]

theorem iflistLoop_of_retry (Δ : Nat) (k : Nat → KResp) (fuel : Nat) (st st2 : IfBufState)
    (h : iflistIter Δ k st = IterOut.retry st2) :
    iflistLoop Δ k (fuel + 1) st = iflistLoop Δ k fuel st2 := by
  rw [iflistLoop_succ, h]

theorem iflistIter_ok_lt (Δ : Nat) (k : Nat → KResp) (st : IfBufState) (r : Nat)
    (h : k (attemptLen Δ st) = KResp.ok r) (hlt : r < attemptLen Δ st) :
    iflistIter Δ k st = IterOut.accept r (attemptLen Δ st) := by
  unfold iflistIter
  simp only [h]
  rw [if_pos hlt]

theorem iflistIter_full_ok (Δ : Nat) (k : Nat → KResp) (st : IfBufState)
    (hfull : k (attemptLen Δ st) = KResp.ok (attemptLen Δ st))
    (hlast : st.lastlen < attemptLen Δ st) :
    iflistIter Δ k st = IterOut.retry ⟨true, attemptLen Δ st, attemptLen Δ st⟩ := by
  unfold iflistIter
  simp only [hfull]
  rw [if_neg (Nat.lt_irrefl _)]
  rw [if_pos (by omega : attemptLen Δ st ≠ st.lastlen)]

theorem attemptLen_mk_true (Δ L v : Nat) (hv : v ≠ 0) :
    attemptLen Δ ⟨true, L, v⟩ = L + Δ := by
  unfold attemptLen
  dsimp only
  have hc : ((!true : Bool) || (v != 0)) = true := by simp [hv]
  rw [if_pos hc]

theorem attemptLen_cases (Δ : Nat) (st : IfBufState) :
    attemptLen Δ st = st.len + Δ ∨ (attemptLen Δ st = st.len ∧ st.lastlen = 0) := by
  unfold attemptLen
  by_cases hl : st.lastlen = 0
  · cases hb : st.hasBuf
    · left
      rw [if_pos (by simp)]
    · right
      refine ⟨?_, hl⟩
      rw [if_neg (by simp [hl])]
  · left
    rw [if_pos (by simp [hl])]

/-- Claim C1: for every sequence of kernel responses (any well-formed
kernel), whenever the retry loop of `sigar_net_interface_list_get`
accepts a result, the kernel-reported byte length is strictly less than
the buffer length used on that attempt; and a successful kernel reply
that fills the buffer exactly never ends the loop — it always produces
a retry whose next attempt is grown by the fixed increment `Δ`. -/
theorem claim_c1 (Δ : Nat) (k : Nat → KResp) (fuel r L : Nat) (st : IfBufState)
    (hΔ : 0 < Δ) (hk : WellFormedKernel k) (hst : st.lastlen = 0)
    (hbuf : st.hasBuf = true → 0 < st.len)
    (h : iflistLoop Δ k fuel st = some (IfOutcome.accepted r L)) :
    r < L ∧
    (∀ st1 : IfBufState, IfInv st1 →
      k (attemptLen Δ st1) = KResp.ok (attemptLen Δ st1) →
      iflistIter Δ k st1 =
        IterOut.retry ⟨true, attemptLen Δ st1, attemptLen Δ st1⟩ ∧
      attemptLen Δ ⟨true, attemptLen Δ st1, attemptLen Δ st1⟩ =
        attemptLen Δ st1 + Δ) := by
  have hinv : IfInv st := ⟨by omega, hbuf⟩
  refine ⟨iflistLoop_accept_lt Δ k hΔ hk fuel st r L hinv h, ?_⟩
  intro st1 hinv1 hfull
  have hlast := lastlen_lt_attemptLen Δ st1 hΔ hinv1
  exact ⟨iflistIter_full_ok Δ k st1 hfull hlast,
         attemptLen_mk_true Δ _ _ (by omega)⟩

/-- A kernel with a fixed demand of 1000 bytes that answers `EINVAL`
while the buffer is below the demand, used to exercise the loop
theorems on concrete runs. -/
def demoKernel (L : Nat) : KResp :=
  if 1000 ≤ L then KResp.ok 1000 else KResp.err EINVAL L

theorem demoKernel_wf : WellFormedKernel demoKernel := by
  intro L
  constructor
  · intro r h
    unfold demoKernel at h
    split at h
    · cases h
      assumption
    · cases h
  · intro e flen h
    unfold demoKernel at h
    split at h
    · cases h
    · cases h
      rfl

theorem demoKernel_ge : ∀ L, 1000 ≤ L → demoKernel L = KResp.ok 1000 := by
  intro L h
  unfold demoKernel
  rw [if_pos h]

/-- Witness for claim C1: with increment 640 and the fixed-demand kernel
`demoKernel`, starting from a null session buffer, the loop accepts the
report 1000 against the buffer length 1280, and 1000 < 1280. -/
theorem claim_c1_witness :
    iflistLoop 640 demoKernel 5 ⟨false, 0, 0⟩ = some (IfOutcome.accepted 1000 1280) ∧
    1000 < 1280 :=
  ⟨by decide,
   (claim_c1 640 demoKernel 5 1000 1280 ⟨false, 0, 0⟩ (by decide) demoKernel_wf rfl
      (by intro h; cases h) (by decide)).1⟩

theorem iflistLoop_mono (Δ : Nat) (k : Nat → KResp) :
    ∀ fuel st out, iflistLoop Δ k fuel st = some out →
      iflistLoop Δ k (fuel + 1) st = some out := by
  intro fuel
  induction fuel with
  | zero =>
    intro st out h
    simp [iflistLoop] at h
  | succ n ih =>
    intro st out h
    rw [iflistLoop_succ] at h
    rw [iflistLoop_succ]
    cases hi : iflistIter Δ k st with
    | accept r1 L1 =>
      rw [hi] at h
      exact h
    | errReturn e =>
      rw [hi] at h
      exact h
    | retry st2 =>
      rw [hi] at h
      exact ih st2 out h

theorem iflistLoop_term_aux (Δ S : Nat) (k : Nat → KResp) (hΔ : 0 < Δ)
    (hk : WellFormedKernel k) (hS : ∀ L, S ≤ L → k L = KResp.ok S) :
    ∀ n st, IfInv st → S ≤ attemptLen Δ st + n * Δ →
      ∃ out, iflistLoop Δ k (n + 2) st = some out := by
  intro n
  induction n with
  | zero =>
    intro st hinv hbound
    simp only [Nat.zero_mul, Nat.add_zero] at hbound
    have hlast := lastlen_lt_attemptLen Δ st hΔ hinv
    have hfull := hS (attemptLen Δ st) hbound
    by_cases hlt : S < attemptLen Δ st
    · exact ⟨IfOutcome.accepted S (attemptLen Δ st),
        iflistLoop_of_accept Δ k 1 st S (attemptLen Δ st)
          (iflistIter_ok_lt Δ k st S hfull hlt)⟩
    · have heq : S = attemptLen Δ st := by omega
      rw [heq] at hfull
      have hstep := iflistIter_full_ok Δ k st hfull hlast
      have h2 : attemptLen Δ ⟨true, attemptLen Δ st, attemptLen Δ st⟩ =
          attemptLen Δ st + Δ :=
        attemptLen_mk_true Δ _ _ (by omega)
      have hfull2 : k (attemptLen Δ ⟨true, attemptLen Δ st, attemptLen Δ st⟩) =
          KResp.ok S := by
        rw [h2]
        exact hS _ (by omega)
      have hacc := iflistIter_ok_lt Δ k ⟨true, attemptLen Δ st, attemptLen Δ st⟩ S hfull2
        (by rw [h2]; omega)
      refine ⟨IfOutcome.accepted S
        (attemptLen Δ ⟨true, attemptLen Δ st, attemptLen Δ st⟩), ?_⟩
      show iflistLoop Δ k (1 + 1) st = _
      rw [iflistLoop_of_retry Δ k 1 st _ hstep]
      exact iflistLoop_of_accept Δ k 0 _ S _ hacc
  | succ n ih =>
    intro st hinv hbound
    by_cases hle : S ≤ attemptLen Δ st
    · obtain ⟨out, hout⟩ := ih st hinv (by omega)
      exact ⟨out, iflistLoop_mono Δ k (n + 2) st out hout⟩
    · cases hi : iflistIter Δ k st with
      | accept r1 L1 =>
        exact ⟨IfOutcome.accepted r1 L1, iflistLoop_of_accept Δ k (n + 2) st r1 L1 hi⟩
      | errReturn e =>
        exact ⟨IfOutcome.failed e, iflistLoop_of_err Δ k (n + 2) st e hi⟩
      | retry st2 =>
        obtain ⟨hinv2, hlen2, hll2, hbb2⟩ := iflistIter_retry_inv Δ k st st2 hΔ hk hinv hi
        have hgrow : attemptLen Δ st2 = st2.len + Δ := by
          rcases attemptLen_cases Δ st2 with hg | ⟨hg, hz⟩
          · exact hg
          · exact absurd hz hll2
        have hb2 : S ≤ attemptLen Δ st2 + n * Δ := by
          rw [hgrow, hlen2]
          have e2 : (n + 1) * Δ = n * Δ + Δ := by ring
          rw [e2] at hbound
          omega
        obtain ⟨out, hout⟩ := ih st2 hinv2 hb2
        refine ⟨out, ?_⟩
        show iflistLoop Δ k ((n + 2) + 1) st = some out
        rw [iflistLoop_of_retry Δ k (n + 2) st st2 hi]
        exact hout

theorem iflistIter_retry_shape (Δ : Nat) (k : Nat → KResp) (st1 st2 : IfBufState)
    (hΔ : 0 < Δ) (h : iflistIter Δ k st1 = IterOut.retry st2) :
    st2.len = attemptLen Δ st1 ∧ attemptLen Δ st2 = st2.len + Δ := by
  unfold iflistIter at h
  split at h
  · rename_i r1 hke
    split at h
    · cases h
    · split at h
      · cases h
        rename_i hlt hne
        refine ⟨rfl, ?_⟩
        have hr0 : r1 ≠ 0 := by
          rcases attemptLen_cases Δ st1 with hg | ⟨hg, hz⟩
          · omega
          · omega
        exact attemptLen_mk_true Δ _ _ hr0
      · cases h
  · rename_i e1 flen1 hke
    split at h
    · cases h
    · split at h
      · cases h
      · split at h
        · cases h
          rename_i hguard hlt hne
          refine ⟨rfl, ?_⟩
          have hf0 : flen1 ≠ 0 := by
            rcases attemptLen_cases Δ st1 with hg | ⟨hg, hz⟩
            · omega
            · omega
          exact attemptLen_mk_true Δ _ _ hf0
        · cases h

theorem iflistIter_same_len_err (Δ : Nat) (k : Nat → KResp) (st1 : IfBufState)
    (e flen : Nat) (hke : k (attemptLen Δ st1) = KResp.err e flen)
    (hsame : st1.lastlen = flen) :
    iflistIter Δ k st1 = IterOut.errReturn e := by
  unfold iflistIter
  simp only [hke]
  rw [if_pos (Or.inr hsame)]

/-- Claim C2: when the size the kernel requires is a fixed `S`, the
adaptive-buffer retry loop terminates within `S / Δ + 3` iterations
(one iteration per distinct buffer size attempted, plus the final
accepting attempt); every retry keeps the attempted size and makes the
next attempt exactly one increment `Δ` larger, so the retry count is
bounded by the number of distinct sizes tried; and a failing ioctl that
reports a length already seen in `lastlen` stops the loop at once. -/
theorem claim_c2 (Δ S : Nat) (k : Nat → KResp) (st : IfBufState)
    (hΔ : 0 < Δ) (hk : WellFormedKernel k) (hS : ∀ L, S ≤ L → k L = KResp.ok S)
    (hst : st.lastlen = 0) (hbuf : st.hasBuf = true → 0 < st.len) :
    (iflistLoop Δ k (S / Δ + 3) st).isSome = true ∧
    (∀ st1 st2 : IfBufState, iflistIter Δ k st1 = IterOut.retry st2 →
      st2.len = attemptLen Δ st1 ∧ attemptLen Δ st2 = st2.len + Δ) ∧
    (∀ (st1 : IfBufState) (e flen : Nat),
      k (attemptLen Δ st1) = KResp.err e flen → st1.lastlen = flen →
      iflistIter Δ k st1 = IterOut.errReturn e) := by
  refine ⟨?_, fun st1 st2 h => iflistIter_retry_shape Δ k st1 st2 hΔ h,
    fun st1 e flen hke hsame => iflistIter_same_len_err Δ k st1 e flen hke hsame⟩
  have hinv : IfInv st := ⟨by omega, hbuf⟩
  have hdm := Nat.div_add_mod S Δ
  have hmod : S % Δ < Δ := Nat.mod_lt S hΔ
  have he : (S / Δ + 1) * Δ = Δ * (S / Δ) + Δ := by ring
  have hbound : S ≤ attemptLen Δ st + (S / Δ + 1) * Δ := by
    rw [he]
    omega
  obtain ⟨out, hout⟩ := iflistLoop_term_aux Δ S k hΔ hk hS (S / Δ + 1) st hinv hbound
  have hfe : S / Δ + 1 + 2 = S / Δ + 3 := by omega
  rw [hfe] at hout
  rw [hout]
  rfl

/-- Witness for claim C2 with increment 640, fixed kernel demand 1000
and a null initial session buffer: the loop terminates within
`1000 / 640 + 3` iterations; the concrete first retry keeps the
attempted size 640 and grows the next attempt to 1280; and a failed
ioctl reporting the remembered length 640 stops the loop with the
errno. -/
theorem claim_c2_witness :
    (iflistLoop 640 demoKernel (1000 / 640 + 3) ⟨false, 0, 0⟩).isSome = true ∧
    ((⟨true, 640, 640⟩ : IfBufState).len = attemptLen 640 ⟨false, 0, 0⟩ ∧
      attemptLen 640 ⟨true, 640, 640⟩ = (⟨true, 640, 640⟩ : IfBufState).len + 640) ∧
    iflistIter 640 demoKernel ⟨true, 0, 640⟩ = IterOut.errReturn 22 := by
  have hmain := claim_c2 640 1000 demoKernel ⟨false, 0, 0⟩ (by decide) demoKernel_wf
    demoKernel_ge rfl (by intro h; cases h)
  refine ⟨hmain.1, hmain.2.1 ⟨false, 0, 0⟩ ⟨true, 640, 640⟩ (by decide), ?_⟩
  exact hmain.2.2 ⟨true, 0, 640⟩ 22 640 (by decide) rfl

/-!
## Socket lifecycle of the enumeration and configuration calls

`sigar_net_interface_list_get` opens a datagram socket before its retry
loop (sigar.c:1103) and closes it after the loop (sigar.c:1141) — but
the error return inside the loop (sigar.c:1123-1124) frees the session
buffer and returns the errno *without* closing the socket.  The event
trace below records the socket operations each call performs.
-/

/-- The ioctl requests issued by `sigar_net_interface_config_get`. -/
inductive IoctlReq where
  | addr
  | netmask
  | flags
  | dstaddr
  | brdaddr
  | hwaddr
  | mtu
  | metric
deriving DecidableEq

/-- Socket events: open, close, and individual ioctl calls. -/
inductive NetEvent where
  | sockOpen
  | sockClose
  | ioc (r : IoctlReq)
deriving DecidableEq

/-- Embeds `sigar_net_interface_list_get` (sigar.c:1097) around the
retry loop: socket creation, the loop, and the two exits.  The
successful exit closes the socket; the in-loop error exit returns the
errno without a close, exactly as the source does. -/
def sigar_net_interface_list_get (Δ : Nat) (sockRes : Except Nat Unit)
    (k : Nat → KResp) (fuel : Nat) (st : IfBufState) :
    Option (Except Nat (Nat × Nat) × List NetEvent) :=
  match sockRes with
  | Except.error e => some (Except.error e, [])
  | Except.ok _ =>
    match iflistLoop Δ k fuel st with
    | none => none
    | some (IfOutcome.failed e) => some (Except.error e, [NetEvent.sockOpen])
    | some (IfOutcome.accepted r L) =>
      some (Except.ok (r, L), [NetEvent.sockOpen, NetEvent.sockClose])

/-- Claim C4 fails on `sigar_net_interface_list_get`: when the
`SIOCGIFCONF` ioctl fails with an errno other than `EINVAL` (here
`EFAULT` = 14), the call returns the errno with the socket still open —
the trace contains the open but no close.  (The companion function
`sigar_net_interface_config_get` does close its socket on every path;
see `sigar_net_interface_config_get_closes` below.) -/
theorem claim_c4_socket_leak :
    sigar_net_interface_list_get 640 (Except.ok ()) (fun L => KResp.err 14 L) 5 ⟨false, 0, 0⟩
      = some (Except.error 14, [NetEvent.sockOpen]) ∧
    NetEvent.sockClose ∉ [NetEvent.sockOpen] := by
  constructor
  · rfl
  · decide

/-!
## Per-interface configuration (`sigar_net_interface_config_get`)

Embedded in its Linux build configuration (`__linux__`, `SIOCGIFHWADDR`
defined).  Each ioctl result is supplied by an oracle; the flag
constants carry their Linux / sigar.h values (the sigar header is not
part of src/; `SIGAR_IFF_*` mirror the classic BSD `IFF_*` bits, and
Linux's `IFF_MULTICAST` is 0x1000, which is why sigar.c:1021 remaps
it to the sigar bit 0x800).
-/

def IFF_LOOPBACK : Nat := 8

def IFF_MULTICAST : Nat := 4096

def SIGAR_IFF_MULTICAST : Nat := 2048

def SIGAR_IFF_LOOPBACK : Nat := 8

def hexDigit (n : Nat) : Char :=
  if n < 10 then Char.ofNat (48 + n) else Char.ofNat (55 + n)

def byteHex (b : Nat) : CStr :=
  [hexDigit (b / 16), hexDigit (b % 16)]

/-- Embeds `sigar_hwaddr_format` (sigar.c:902): renders the six bytes
as colon-separated uppercase hex, each byte masked with `0377`. -/
def sigar_hwaddr_format (bytes : List Nat) : CStr :=
  byteHex (bytes.getD 0 0 % 256) ++
    (':' :: (byteHex (bytes.getD 1 0 % 256) ++
      (':' :: (byteHex (bytes.getD 2 0 % 256) ++
        (':' :: (byteHex (bytes.getD 3 0 % 256) ++
          (':' :: (byteHex (bytes.getD 4 0 % 256) ++
            (':' :: byteHex (bytes.getD 5 0 % 256))))))))))

/-- Modelled from the spec: `sigar_hwaddr_set_null` (sigar header, not
in src/) stores the null hardware address string. -/
def nullHwaddr : CStr := "00:00:00:00:00:00".toList

/-- The results each per-interface ioctl would deliver. -/
structure IfConfigOracle where
  sock : Except Nat Unit
  addr : Except Nat Nat
  netmask : Except Nat Nat
  flags : Except Nat Nat
  dstaddr : Except Nat Nat
  brdaddr : Except Nat Nat
  hwaddr : Except Nat (List Nat)
  mtu : Except Nat Nat
  metric : Except Nat Nat

/-- The `sigar_net_interface_config_t` fields populated by
`sigar_net_interface_config_get`. -/
structure IfConfig where
  name : CStr
  address : Nat
  netmask : Nat
  broadcast : Nat
  destination : Nat
  flags : Nat
  mtu : Nat
  metric : Nat
  hwaddr : CStr
deriving DecidableEq

/-- The Linux multicast remapping at sigar.c:1021-1027: set the sigar
multicast bit when `IFF_MULTICAST` is on, else clear it.  Since bitwise
AND partitions the bits of `f`, `f & ~m` equals `f - (f & m)`. -/
def linuxFlagsAdjust (f : Nat) : Nat :=
  if f &&& IFF_MULTICAST ≠ 0 then f ||| SIGAR_IFF_MULTICAST
  else f - (f &&& SIGAR_IFF_MULTICAST)

/-- Best-effort netmask (sigar.c:1007): zero default on ioctl failure. -/
def ifcNetmask (o : IfConfigOracle) : Nat :=
  match o.netmask with
  | Except.ok v => v
  | Except.error _ => 0

/-- Best-effort destination (sigar.c:1043). -/
def ifcDst (o : IfConfigOracle) : Nat :=
  match o.dstaddr with
  | Except.ok v => v
  | Except.error _ => 0

/-- Best-effort broadcast (sigar.c:1047). -/
def ifcBrd (o : IfConfigOracle) : Nat :=
  match o.brdaddr with
  | Except.ok v => v
  | Except.error _ => 0

/-- Best-effort hardware address (sigar.c:1052): formatted on success,
left at its zeroed default on failure. -/
def ifcHwaddr (o : IfConfigOracle) : CStr :=
  match o.hwaddr with
  | Except.ok bytes => sigar_hwaddr_format bytes
  | Except.error _ => []

/-- Best-effort MTU (sigar.c:1063). -/
def ifcMtu (o : IfConfigOracle) : Nat :=
  match o.mtu with
  | Except.ok v => v
  | Except.error _ => 0

/-- Best-effort metric with the zero-means-one default (sigar.c:1070). -/
def ifcMetric (o : IfConfigOracle) : Nat :=
  match o.metric with
  | Except.ok v => if v ≠ 0 then v else 1
  | Except.error _ => 0

/-- Embeds `sigar_net_interface_config_get` (sigar.c:980), returning
the populated configuration or the errno of the failing mandatory step,
together with the trace of socket events the call performed.  Address
and flags lookups are mandatory (early error returns close the socket,
sigar.c:1003 and 1033); the loopback branch (sigar.c:1037) mirrors the
address into the destination, zeroes the broadcast and stores the null
hardware address without a hardware lookup. -/
def sigar_net_interface_config_get (o : IfConfigOracle) (name : CStr) :
    Except Nat IfConfig × List NetEvent :=
  match o.sock with
  | Except.error e => (Except.error e, [])
  | Except.ok _ =>
    match o.addr with
    | Except.error e =>
      (Except.error e,
       [NetEvent.sockOpen, NetEvent.ioc IoctlReq.addr, NetEvent.sockClose])
    | Except.ok a =>
      match o.flags with
      | Except.error e =>
        (Except.error e,
         [NetEvent.sockOpen, NetEvent.ioc IoctlReq.addr, NetEvent.ioc IoctlReq.netmask,
          NetEvent.ioc IoctlReq.flags, NetEvent.sockClose])
      | Except.ok f0 =>
        if linuxFlagsAdjust f0 &&& IFF_LOOPBACK ≠ 0 then
          (Except.ok ⟨name, a, ifcNetmask o, 0, a, linuxFlagsAdjust f0,
             ifcMtu o, ifcMetric o, nullHwaddr⟩,
           [NetEvent.sockOpen, NetEvent.ioc IoctlReq.addr, NetEvent.ioc IoctlReq.netmask,
            NetEvent.ioc IoctlReq.flags, NetEvent.ioc IoctlReq.mtu,
            NetEvent.ioc IoctlReq.metric, NetEvent.sockClose])
        else
          (Except.ok ⟨name, a, ifcNetmask o, ifcBrd o, ifcDst o, linuxFlagsAdjust f0,
             ifcMtu o, ifcMetric o, ifcHwaddr o⟩,
           [NetEvent.sockOpen, NetEvent.ioc IoctlReq.addr, NetEvent.ioc IoctlReq.netmask,
            NetEvent.ioc IoctlReq.flags, NetEvent.ioc IoctlReq.dstaddr,
            NetEvent.ioc IoctlReq.brdaddr, NetEvent.ioc IoctlReq.hwaddr,
            NetEvent.ioc IoctlReq.mtu, NetEvent.ioc IoctlReq.metric, NetEvent.sockClose])

/-- `sigar_net_interface_config_get` balances its socket events on
every path (this is the half of spec section 5 that the code honours;
see `claim_c4_socket_leak` for the enumeration function). -/
theorem sigar_net_interface_config_get_closes (o : IfConfigOracle) (name : CStr) :
    (sigar_net_interface_config_get o name).2.count NetEvent.sockOpen =
      (sigar_net_interface_config_get o name).2.count NetEvent.sockClose := by
  unfold sigar_net_interface_config_get
  split
  · rfl
  · split
    · rfl
    · split
      · rfl
      · split
        · rfl
        · rfl

/-- Claim C7: every successful configuration whose flags include the
loopback bit has destination equal to address, zero broadcast and the
null hardware address, and the call issued no hardware-address ioctl. -/
theorem claim_c7 (o : IfConfigOracle) (name : CStr) (cfg : IfConfig)
    (evs : List NetEvent)
    (h : sigar_net_interface_config_get o name = (Except.ok cfg, evs))
    (hlb : cfg.flags &&& IFF_LOOPBACK ≠ 0) :
    cfg.destination = cfg.address ∧ cfg.broadcast = 0 ∧ cfg.hwaddr = nullHwaddr ∧
    NetEvent.ioc IoctlReq.hwaddr ∉ evs := by
  unfold sigar_net_interface_config_get at h
  split at h
  · simp at h
  · split at h
    · simp at h
    · split at h
      · simp at h
      · split at h
        · simp only [Prod.mk.injEq, Except.ok.injEq] at h
          obtain ⟨h1, h2⟩ := h
          subst h1
          subst h2
          refine ⟨rfl, rfl, rfl, by decide⟩
        · rename_i hcond
          simp only [Prod.mk.injEq, Except.ok.injEq] at h
          obtain ⟨h1, h2⟩ := h
          subst h1
          exact absurd hlb hcond

/-- A concrete loopback oracle: address 16777343, netmask 255, raw
flags 73 (up | running | loopback), best-effort lookups failing, MTU
65536 and a zero kernel metric. -/
def c7Oracle : IfConfigOracle :=
  ⟨Except.ok (), Except.ok 16777343, Except.ok 255, Except.ok 73,
   Except.error 99, Except.error 99, Except.error 99, Except.ok 65536, Except.ok 0⟩

/-- Witness for claim C7 at `c7Oracle`: the produced loopback
configuration mirrors the address, zeroes the broadcast, stores the
null hardware address, and the trace has no hardware ioctl. -/
theorem claim_c7_witness :
    (⟨"lo".toList, 16777343, 255, 0, 16777343, 73, 65536, 1, nullHwaddr⟩ : IfConfig).destination =
      (⟨"lo".toList, 16777343, 255, 0, 16777343, 73, 65536, 1, nullHwaddr⟩ : IfConfig).address ∧
    (⟨"lo".toList, 16777343, 255, 0, 16777343, 73, 65536, 1, nullHwaddr⟩ : IfConfig).broadcast = 0 ∧
    (⟨"lo".toList, 16777343, 255, 0, 16777343, 73, 65536, 1, nullHwaddr⟩ : IfConfig).hwaddr = nullHwaddr ∧
    NetEvent.ioc IoctlReq.hwaddr ∉
      [NetEvent.sockOpen, NetEvent.ioc IoctlReq.addr, NetEvent.ioc IoctlReq.netmask,
       NetEvent.ioc IoctlReq.flags, NetEvent.ioc IoctlReq.mtu,
       NetEvent.ioc IoctlReq.metric, NetEvent.sockClose] :=
  claim_c7 c7Oracle "lo".toList
    ⟨"lo".toList, 16777343, 255, 0, 16777343, 73, 65536, 1, nullHwaddr⟩
    [NetEvent.sockOpen, NetEvent.ioc IoctlReq.addr, NetEvent.ioc IoctlReq.netmask,
     NetEvent.ioc IoctlReq.flags, NetEvent.ioc IoctlReq.mtu,
     NetEvent.ioc IoctlReq.metric, NetEvent.sockClose]
    (by rfl) (by decide)

/-!
## Fully-qualified-hostname resolution

`sigar_fqdn_get` (sigar.c:1263) and its IP fallback `fqdn_ip_get`
(sigar.c:1214).  The hostname, DNS, domain and interface collaborators
are supplied by a `DnsOracle`.  `IS_FQDN` is `strchr(name, '.')`
(sigar.c:1254) and `H_ALIAS_MATCH(alias, name)` is
`IS_FQDN(alias) && strnEQ(alias, name, strlen(name))` (sigar.c:1257).
Note that the code crashes when `gethostbyaddr` returns `NULL`: it
dereferences `q->h_name` without a check (sigar.c:1344); the embedding
makes that path explicit as `FqdnResult.crash`.
-/

/-- `IS_FQDN` (sigar.c:1254): the name contains a dot. -/
def isFqdnB (s : CStr) : Bool := s.contains '.'

/-- `H_ALIAS_MATCH` (sigar.c:1257): the alias is dotted and its first
`strlen(name)` characters equal `name`. -/
def aliasMatchB (al nm : CStr) : Bool :=
  isFqdnB al && (al.take nm.length == nm)

/-- The fields of `struct hostent` that `sigar_fqdn_get` reads. -/
structure Hostent where
  h_name : CStr
  h_aliases : List CStr
  h_addr_list : List Nat

/-- Everything the environment supplies to `sigar_fqdn_get`:
`gethostname`, `gethostbyname`, `gethostbyaddr`, `getdomainname`, and
the interface enumeration/configuration used by `fqdn_ip_get` (the
enumerator and resolver are collaborators at this level; their own
behaviour is verified separately above). -/
structure DnsOracle where
  gethostname : Except Nat CStr
  gethostbyname : CStr → Option Hostent
  gethostbyaddr : Nat → Option Hostent
  getdomainname : Option CStr
  iflist : Except Nat (List CStr)
  ifconfig : CStr → Except Nat IfConfig

/-- One byte rendered in decimal without leading zeros: the
`u > 99` / `u > 9` / default branches of `sigar_inet_ntoa`. -/
def decByte (u : Nat) : CStr :=
  if u > 99 then
    [Char.ofNat (48 + u / 100), Char.ofNat (48 + u / 10 % 10), Char.ofNat (48 + u % 10)]
  else if u > 9 then
    [Char.ofNat (48 + u / 10), Char.ofNat (48 + u % 10)]
  else
    [Char.ofNat (48 + u)]

/-- Embeds `sigar_inet_ntoa` (sigar.c:1179): dotted-decimal rendering
of the four bytes of the 32-bit address, reading the in-memory bytes of
`s_addr` from low to high (little-endian host). -/
def sigar_inet_ntoa (address : Nat) : CStr :=
  decByte (address % 256) ++
    ('.' :: (decByte (address / 256 % 256) ++
      ('.' :: (decByte (address / 65536 % 256) ++
        ('.' :: decByte (address / 16777216 % 256))))))

/-- The body of the interface loop in `fqdn_ip_get` (sigar.c:1223-1242):
an interface contributes its address unless its configuration lookup
fails or it is flagged loopback. -/
def fqdnIfAddr (o : DnsOracle) (ifname : CStr) : Option Nat :=
  match o.ifconfig ifname with
  | Except.error _ => none
  | Except.ok cfg =>
    if cfg.flags &&& SIGAR_IFF_LOOPBACK ≠ 0 then none else some cfg.address

/-- Embeds `fqdn_ip_get` (sigar.c:1214): on enumeration failure the
status is returned with the name untouched; otherwise the first
non-loopback interface with a successful configuration lookup has its
address written in dotted decimal, and if none qualifies the name is
left unchanged and `SIGAR_OK` returned. -/
def fqdn_ip_get (o : DnsOracle) (name : CStr) : Nat × CStr :=
  match o.iflist with
  | Except.error status => (status, name)
  | Except.ok ifnames =>
    match ifnames.findSome? (fqdnIfAddr o) with
    | some a => (SIGAR_OK, sigar_inet_ntoa a)
    | none => (SIGAR_OK, name)

/-- Outcome of the reverse-lookup loop over `h_addr_list`. -/
inductive ScanOut where
  | found (n : CStr)
  | notFound
  | crashed
deriving DecidableEq

/-- The `gethostbyaddr` loop of `sigar_fqdn_get` (sigar.c:1335-1366):
for each address, reverse-resolve; a `NULL` result is dereferenced by
the code, modelled as `crashed`; a dotted canonical name or a matching
alias is accepted; otherwise the next address is tried. -/
def addrScan (g : Nat → Option Hostent) : List Nat → ScanOut
  | [] => ScanOut.notFound
  | a :: rest =>
    match g a with
    | none => ScanOut.crashed
    | some q =>
      if isFqdnB q.h_name then ScanOut.found q.h_name
      else
        match q.h_aliases.find? (fun al => aliasMatchB al q.h_name) with
        | some al => ScanOut.found al
        | none => addrScan g rest

/-- The `getdomainname` concatenation step (sigar.c:1372-1391): when
the name is still not dotted and the domain lookup succeeds with a
non-empty value that is not the "(none)" sentinel, append
`"." ++ domain`. -/
def fqdnDomainStep (o : DnsOracle) (nm : CStr) : CStr :=
  if isFqdnB nm then nm
  else
    match o.getdomainname with
    | none => nm
    | some dom =>
      if dom ≠ [] ∧ dom.head? ≠ some '(' then nm ++ ('.' :: dom) else nm

/-- Result of `sigar_fqdn_get`: an errno, a name written to the
caller's buffer with `SIGAR_OK`, or the crash on the unchecked
`gethostbyaddr` result. -/
inductive FqdnResult where
  | err (e : Nat)
  | ok (name : CStr)
  | crash
deriving DecidableEq

/-- Embeds `sigar_fqdn_get` (sigar.c:1263): gethostname (only fatal
step), forward lookup with IP/as-is fallback on failure, dotted
canonical name, alias scan against the canonical name, reverse lookup
loop, domain concatenation, final IP fallback. -/
def sigar_fqdn_get (o : DnsOracle) : FqdnResult :=
  match o.gethostname with
  | Except.error e => FqdnResult.err e
  | Except.ok nm =>
    match o.gethostbyname nm with
    | none =>
      if isFqdnB nm then FqdnResult.ok nm
      else FqdnResult.ok (fqdn_ip_get o nm).2
    | some p =>
      if isFqdnB p.h_name then FqdnResult.ok p.h_name
      else
        match p.h_aliases.find? (fun al => aliasMatchB al p.h_name) with
        | some al => FqdnResult.ok al
        | none =>
          match addrScan o.gethostbyaddr p.h_addr_list with
          | ScanOut.found n => FqdnResult.ok n
          | ScanOut.crashed => FqdnResult.crash
          | ScanOut.notFound =>
            if isFqdnB (fqdnDomainStep o nm) then FqdnResult.ok (fqdnDomainStep o nm)
            else FqdnResult.ok (fqdn_ip_get o (fqdnDomainStep o nm)).2

/-- Claim C5 fails as stated: with short hostname "host" and a forward
resolution whose (non-dotted) canonical name is "alpha", the code skips
the alias "host.internal.example.com" — dotted and carrying the short
hostname as prefix — and accepts "alpha.example.com", whose prefix is
the canonical name, not the short hostname.  The prefix is matched
against `p->h_name`, not against the `gethostname` result. -/
def c5Oracle : DnsOracle :=
  ⟨Except.ok "host".toList,
   fun _ => some ⟨"alpha".toList,
     ["host.internal.example.com".toList, "alpha.example.com".toList], []⟩,
   fun _ => none, none, Except.error 1, fun _ => Except.error 1⟩

theorem c5_counterexample :
    sigar_fqdn_get c5Oracle = FqdnResult.ok "alpha.example.com".toList ∧
    aliasMatchB "alpha.example.com".toList "host".toList = false ∧
    aliasMatchB "host.internal.example.com".toList "host".toList = true := by
  refine ⟨by decide, by decide, by decide⟩

/-- Claim C5 (amended): when forward resolution succeeds with a
non-dotted canonical name, an alias is accepted iff it contains a dot
and the canonical name `h_name` (not the short hostname) is a prefix of
it, with the first match in list order becoming the result; when the
canonical name equals the short hostname "host", the alias
"host.internal.example.com" is accepted and "otherhost.example.com" is
rejected even though it is dotted. -/
theorem claim_c5_amended (o : DnsOracle) (nm : CStr) (p : Hostent) (a : CStr)
    (h1 : o.gethostname = Except.ok nm)
    (h2 : o.gethostbyname nm = some p)
    (h3 : isFqdnB p.h_name = false)
    (h4 : p.h_aliases.find? (fun al => aliasMatchB al p.h_name) = some a) :
    sigar_fqdn_get o = FqdnResult.ok a ∧
    aliasMatchB "host.internal.example.com".toList "host".toList = true ∧
    aliasMatchB "otherhost.example.com".toList "host".toList = false := by
  refine ⟨?_, by decide, by decide⟩
  unfold sigar_fqdn_get
  simp [h1, h2, h3, h4]

/-- Oracle for the claim C5 witness: canonical name equal to the short
hostname, with the matching alias present. -/
def c5wOracle : DnsOracle :=
  ⟨Except.ok "host".toList,
   fun _ => some ⟨"host".toList, ["host.internal.example.com".toList], []⟩,
   fun _ => none, none, Except.error 1, fun _ => Except.error 1⟩

/-- Witness for the amended claim C5. -/
theorem claim_c5_witness :
    sigar_fqdn_get c5wOracle = FqdnResult.ok "host.internal.example.com".toList ∧
    aliasMatchB "host.internal.example.com".toList "host".toList = true ∧
    aliasMatchB "otherhost.example.com".toList "host".toList = false :=
  claim_c5_amended c5wOracle "host".toList
    ⟨"host".toList, ["host.internal.example.com".toList], []⟩
    "host.internal.example.com".toList rfl rfl (by decide) (by decide)

/-- The behaviour that falsifies claim C6: gethostname succeeds with
"myhost"; forward resolution succeeds with the non-dotted canonical
name "myhost", no aliases and one address; reverse resolution of that
address fails (no PTR record).  The code then dereferences the `NULL`
`hostent` (`q->h_name`, sigar.c:1344) instead of returning `SIGAR_OK`. -/
def c6Oracle : DnsOracle :=
  ⟨Except.ok "myhost".toList,
   fun _ => some ⟨"myhost".toList, [], [0]⟩,
   fun _ => none,
   none, Except.error 1, fun _ => Except.error 1⟩

theorem claim_c6_crash : sigar_fqdn_get c6Oracle = FqdnResult.crash := by
  decide

/-- Claim C10: if forward resolution fails, the short hostname has no
dot, and the IP-substitution fallback finds nothing — enumeration
fails, or every enumerated interface has a failing configuration
lookup or the loopback flag — then `sigar_fqdn_get` still returns
`SIGAR_OK` with the unmodified short hostname in the buffer. -/
theorem claim_c10 (o : DnsOracle) (nm : CStr)
    (h1 : o.gethostname = Except.ok nm)
    (h2 : o.gethostbyname nm = none)
    (h3 : isFqdnB nm = false)
    (h4 : (∃ e, o.iflist = Except.error e) ∨
          (∃ ifs, o.iflist = Except.ok ifs ∧ ∀ i ∈ ifs, fqdnIfAddr o i = none)) :
    sigar_fqdn_get o = FqdnResult.ok nm := by
  have hip : (fqdn_ip_get o nm).2 = nm := by
    rcases h4 with ⟨e, he⟩ | ⟨ifs, hok, hall⟩
    · simp [fqdn_ip_get, he]
    · have hnone : ifs.findSome? (fqdnIfAddr o) = none :=
        List.findSome?_eq_none_iff.mpr hall
      simp [fqdn_ip_get, hok, hnone]
  unfold sigar_fqdn_get
  simp [h1, h2, h3, hip]

/-- Oracle for the claim C10 witness: short hostname "box", failing
forward resolution, and a single loopback interface. -/
def c10Oracle : DnsOracle :=
  ⟨Except.ok "box".toList,
   fun _ => none,
   fun _ => none,
   none,
   Except.ok ["lo".toList],
   fun _ => Except.ok ⟨"lo".toList, 16777343, 255, 0, 16777343, 73, 65536, 1, nullHwaddr⟩⟩

/-- Witness for claim C10. -/
theorem claim_c10_witness :
    sigar_fqdn_get c10Oracle = FqdnResult.ok "box".toList :=
  claim_c10 c10Oracle "box".toList rfl rfl (by decide)
    (Or.inr ⟨["lo".toList], rfl, by decide⟩)
